import Mathlib

/-!
Verification of the serpent codon/nucleotide/amino conversion core against
its specification.  Python dictionaries are embedded as association lists
(`List (key × value)`) searched with `List.lookup`; a lookup that would raise
`KeyError` yields `none`.  Failed `assert` statements and uncaught exceptions
are likewise embedded as `none` results.
-/

namespace Serpent

/-- settings.py: `BASE_ORDER = 'GACT'`. -/
def BASE_ORDER : List Char := ['G', 'A', 'C', 'T']

/-- fun.py `str_join`: join a sequence of characters into a string. -/
def str_join (l : List Char) : String := String.mk l

/-- fun.py `inverse_od`: swap keys and values of an ordered dictionary.
A Python dict built from a pair list keeps the *last* value bound to a
duplicated key, while `List.lookup` returns the *first* match, so the model
reverses the swapped pair list.  (For duplicate-free keys this only changes
the iteration order, which no embedded claim observes.) -/
def inverse_od {α β : Type} (l : List (α × β)) : List (β × α) :=
  (l.map Prod.swap).reverse

/-- codon.py `codons_array`: the 64 codons over the given base order, in
lexicographic product order (`itertools.product(bases, repeat=3)`).  The
source asserts `valid_base_order bases`; both call sites (`'GACT'` and
`'TCAG'`) satisfy it. -/
def codons_array (bases : List Char) : List String :=
  bases.flatMap fun b1 => bases.flatMap fun b2 => bases.map fun b3 => str_join [b1, b2, b3]

/-- codon.py `valid_base_order`: the base order must be a permutation of ACGT. -/
def valid_base_order (bases : List Char) : Bool :=
  bases.mergeSort (fun a b => a ≤ b) == ['A', 'C', 'G', 'T']

/-- codon.py `codons_inverse = OrderedDict([*enumerate(codons_array(BASE_ORDER))])`. -/
def codons_inverse : List (Nat × String) := (codons_array BASE_ORDER).enum

/-- codon.py `codons = inverse_od(codons_inverse)`. -/
def codons : List (String × Nat) := inverse_od codons_inverse

/-- codon.py `codon_to_num`: dictionary lookup, `KeyError` mapped to `none`. -/
def codon_to_num (codon : String) : Option Nat := codons.lookup codon

/-- codon.py `num_to_codon`. -/
def num_to_codon (code : Nat) : Option String := codons_inverse.lookup code

/-- C1: for every x in [0,64), `codon_to_num(num_to_codon(x)) == x`, and for
every valid codon c over the default base order GACT,
`num_to_codon(codon_to_num(c)) == c`. -/
theorem codon_num_bijection :
    (∀ x : Nat, x < 64 → (num_to_codon x).bind codon_to_num = some x) ∧
    (∀ c ∈ codons_array BASE_ORDER, (codon_to_num c).bind num_to_codon = some c) := by
  constructor
  · decide
  · decide

/-- C1 witness: the round trips evaluated at the concrete inputs 42 and "TTT". -/
theorem codon_num_bijection_witness :
    (num_to_codon 42).bind codon_to_num = some 42 ∧
    (codon_to_num "TTT").bind num_to_codon = some "TTT" :=
  ⟨codon_num_bijection.1 42 (by decide),
   codon_num_bijection.2 "TTT" (by decide)⟩

/-! ## convert/dnt.py: degenerate nucleotide algebra -/

/-- dnt.py `inverse_exp_dnt(BASE_ORDER)`, the `dnt_to_bits` table: each base
gets bit `2 ** n` for its position n in `BASE_ORDER = 'GACT'` (G=1, A=2, C=4,
T=8) and each ambiguity symbol the bitwise OR of its member bases.  The
source sorts the items by bit value before freezing the dict; that only
fixes the iteration order, which no lookup depends on. -/
def dnt_to_bits : List (Char × Nat) :=
  let G := 1
  let A := 2
  let C := 4
  let T := 8
  [('G', G), ('A', A), ('C', C), ('T', T),
   ('Z', 0),
   ('R', G ||| A), ('Y', C ||| T), ('S', G ||| C),
   ('W', A ||| T), ('M', A ||| C), ('K', G ||| T),
   ('H', 0 ||| A ||| C ||| T), ('B', G ||| 0 ||| C ||| T),
   ('D', G ||| A ||| 0 ||| T), ('V', G ||| A ||| C ||| 0),
   ('N', G ||| A ||| C ||| T)]

/-- dnt.py `bits_to_dnt = inverse_od(dnt_to_bits)`. -/
def bits_to_dnt : List (Nat × Char) := inverse_od dnt_to_bits

/-- The 16 valid degenerate nucleotide symbols (the keys of `dnt_to_bits`). -/
def dnt_symbols : List Char := dnt_to_bits.map Prod.fst

/-- dnt.py `dntset_to_bits`: `reduce(or_, (dnt_to_bits[dnt] for dnt in
set(dntset)), 0)`.  Embedded as a fold over the list of symbols: bitwise OR
is commutative, associative and idempotent, so the `set()` conversion
(deduplication, arbitrary order) cannot change the value.  An unknown symbol
raises `KeyError`, i.e. yields `none`. -/
def dntset_to_bits (dntset : List Char) : Option Nat :=
  dntset.foldr
    (fun d acc => (dnt_to_bits.lookup d).bind fun b => acc.map fun r => b ||| r)
    (some 0)

/-- dnt.py `compress_dntset`: `bits_to_dnt.get(dntset_to_bits(dntset))`.
(`dict.get` returns `None` on a missing mask, merged here with the
`KeyError` of `dntset_to_bits` into one `none`.) -/
def compress_dntset (dntset : List Char) : Option Char :=
  (dntset_to_bits dntset).bind fun b => bits_to_dnt.lookup b

/-- dnt.py `bits_include`: `~mask & bits == 0`.  Python integers are
unbounded, but every stored mask is a 4-bit value, so only the low 4 bits of
the complement can meet `bits`; `~mask` is therefore embedded as
`15 ^^^ mask`. -/
def bits_include (bits mask : Nat) : Bool :=
  (15 ^^^ mask) &&& bits == 0

/-- dnt.py `dnt_include`: look up both symbols and test mask inclusion;
`KeyError` on an unknown symbol yields `none`. -/
def dnt_include (dnt mask : Char) : Option Bool :=
  (dnt_to_bits.lookup dnt).bind fun bits =>
    (dnt_to_bits.lookup mask).map fun m => bits_include bits m

/-- dnt.py `decompress_dnt`: expand a symbol to the set of concrete bases it
covers, `{nt for nt in bases if dnt_include(nt, dnt)}`; the result is
embedded as the filtered base list (its members are what Python's set
equality compares).  The `assert dnt in dnt_to_bits` failure yields `none`;
the `dnt or 'Z'` default cannot fire for a `Char` argument. -/
def decompress_dnt (dnt : Char) : Option (List Char) :=
  if (dnt_to_bits.lookup dnt).isSome then
    some (BASE_ORDER.filter fun nt => dnt_include nt dnt == some true)
  else none

/-- The bit mask determined by which of the four bases are present. -/
def boolBits (g a c t : Bool) : Nat :=
  (cond g 1 0) ||| (cond a 2 0) ||| (cond c 4 0) ||| (cond t 8 0)

/-- The base list determined by which of the four bases are present. -/
def basesOf (g a c t : Bool) : List Char :=
  (cond g ['G'] []) ++ (cond a ['A'] []) ++ (cond c ['C'] []) ++ (cond t ['T'] [])

theorem lor_boolBits_G (g a c t : Bool) : 1 ||| boolBits g a c t = boolBits true a c t := by
  cases g <;> cases a <;> cases c <;> cases t <;> decide

theorem lor_boolBits_A (g a c t : Bool) : 2 ||| boolBits g a c t = boolBits g true c t := by
  cases g <;> cases a <;> cases c <;> cases t <;> decide

theorem lor_boolBits_C (g a c t : Bool) : 4 ||| boolBits g a c t = boolBits g a true t := by
  cases g <;> cases a <;> cases c <;> cases t <;> decide

theorem lor_boolBits_T (g a c t : Bool) : 8 ||| boolBits g a c t = boolBits g a c true := by
  cases g <;> cases a <;> cases c <;> cases t <;> decide

theorem mem_basesOf (g a c t : Bool) (x : Char) :
    x ∈ basesOf g a c t ↔
      (x = 'G' ∧ g = true) ∨ (x = 'A' ∧ a = true) ∨
      (x = 'C' ∧ c = true) ∨ (x = 'T' ∧ t = true) := by
  cases g <;> cases a <;> cases c <;> cases t <;> simp [basesOf]

theorem dntset_to_bits_subset (S : List Char) (hS : ∀ c ∈ S, c ∈ BASE_ORDER) :
    dntset_to_bits S =
      some (boolBits (S.contains 'G') (S.contains 'A') (S.contains 'C') (S.contains 'T')) := by
  induction S with
  | nil => decide
  | cons c S ih =>
    have hc4 : c = 'G' ∨ c = 'A' ∨ c = 'C' ∨ c = 'T' := by
      simpa [BASE_ORDER] using hS c (List.mem_cons_self c S)
    have ih' := ih (fun x hx => hS x (List.mem_cons_of_mem c hx))
    have hstep : dntset_to_bits (c :: S) =
        (dnt_to_bits.lookup c).bind fun b => (dntset_to_bits S).map fun r => b ||| r := rfl
    rw [hstep, ih']
    rcases hc4 with rfl | rfl | rfl | rfl
    · show some (1 ||| boolBits (S.contains 'G') (S.contains 'A') (S.contains 'C') (S.contains 'T'))
        = some (boolBits true (S.contains 'A') (S.contains 'C') (S.contains 'T'))
      rw [lor_boolBits_G]
    · show some (2 ||| boolBits (S.contains 'G') (S.contains 'A') (S.contains 'C') (S.contains 'T'))
        = some (boolBits (S.contains 'G') true (S.contains 'C') (S.contains 'T'))
      rw [lor_boolBits_A]
    · show some (4 ||| boolBits (S.contains 'G') (S.contains 'A') (S.contains 'C') (S.contains 'T'))
        = some (boolBits (S.contains 'G') (S.contains 'A') true (S.contains 'T'))
      rw [lor_boolBits_C]
    · show some (8 ||| boolBits (S.contains 'G') (S.contains 'A') (S.contains 'C') (S.contains 'T'))
        = some (boolBits (S.contains 'G') (S.contains 'A') (S.contains 'C') true)
      rw [lor_boolBits_T]

theorem compress_then_decompress_key (g a c t : Bool) (h : (g || a || c || t) = true) :
    ((bits_to_dnt.lookup (boolBits g a c t)).bind decompress_dnt) =
      some (basesOf g a c t) := by
  revert h
  cases g <;> cases a <;> cases c <;> cases t <;> decide

/-- C2: `compress_dntset(decompress_dnt(x)) == x` for each of the 16 valid
degenerate nucleotide symbols x, and `decompress_dnt(compress_dntset(S)) == S`
(as sets) for every non-empty set S of concrete bases S ⊆ {G,A,C,T}. -/
theorem compress_decompress_inverse :
    (∀ d ∈ dnt_symbols, (decompress_dnt d).bind compress_dntset = some d) ∧
    (∀ S : List Char, S ≠ [] → (∀ c ∈ S, c ∈ BASE_ORDER) →
      (((compress_dntset S).bind decompress_dnt).map List.toFinset) = some S.toFinset) := by
  constructor
  · decide
  · intro S hne hsub
    have hbits := dntset_to_bits_subset S hsub
    obtain ⟨c, hc⟩ := List.exists_mem_of_ne_nil S hne
    have hc4 : c = 'G' ∨ c = 'A' ∨ c = 'C' ∨ c = 'T' := by
      simpa [BASE_ORDER] using hsub c hc
    have hccont : S.contains c = true := by
      simpa using hc
    have hmem : (S.contains 'G' || S.contains 'A' || S.contains 'C' || S.contains 'T') = true := by
      rcases hc4 with rfl | rfl | rfl | rfl <;> simp [hc]
    have hkey := compress_then_decompress_key _ _ _ _ hmem
    have hcomp : compress_dntset S =
        bits_to_dnt.lookup
          (boolBits (S.contains 'G') (S.contains 'A') (S.contains 'C') (S.contains 'T')) := by
      unfold compress_dntset
      rw [hbits]
      rfl
    rw [hcomp, hkey]
    simp only [Option.map_some']
    congr 1
    ext x
    simp only [List.mem_toFinset]
    rw [mem_basesOf]
    constructor
    · rintro (⟨rfl, hx⟩ | ⟨rfl, hx⟩ | ⟨rfl, hx⟩ | ⟨rfl, hx⟩) <;> simpa using hx
    · intro hx
      have hx4 : x = 'G' ∨ x = 'A' ∨ x = 'C' ∨ x = 'T' := by
        simpa [BASE_ORDER] using hsub x hx
      have hxc : S.contains x = true := by simpa using hx
      rcases hx4 with rfl | rfl | rfl | rfl
      · exact Or.inl ⟨rfl, hxc⟩
      · exact Or.inr (Or.inl ⟨rfl, hxc⟩)
      · exact Or.inr (Or.inr (Or.inl ⟨rfl, hxc⟩))
      · exact Or.inr (Or.inr (Or.inr ⟨rfl, hxc⟩))

/-- C2 witness: round trips at the concrete symbol 'R' and set {'G','A'}. -/
theorem compress_decompress_inverse_witness :
    (decompress_dnt 'R').bind compress_dntset = some 'R' ∧
    (((compress_dntset ['G', 'A']).bind decompress_dnt).map List.toFinset) =
      some (['G', 'A'] : List Char).toFinset :=
  ⟨compress_decompress_inverse.1 'R' (by decide),
   compress_decompress_inverse.2 ['G', 'A'] (by decide) (by decide)⟩

/-- C4: for valid degenerate nucleotide symbols a and b, `dnt_include(a,b)`
is true iff every concrete base in `decompress_dnt(a)` is a member of
`decompress_dnt(b)`, i.e. iff a's 4-bit mask is a subset of b's 4-bit mask. -/
theorem dnt_include_iff_subset :
    ∀ a ∈ dnt_symbols, ∀ b ∈ dnt_symbols,
      (dnt_include a b = some true ↔
        ∀ x ∈ (decompress_dnt a).getD [], x ∈ (decompress_dnt b).getD []) ∧
      (dnt_include a b = some true ↔
        (dnt_to_bits.lookup a).getD 0 &&& (dnt_to_bits.lookup b).getD 0 =
          (dnt_to_bits.lookup a).getD 0) := by
  decide

/-- C4 witness: instantiated at the pair ('G', 'R'), where inclusion holds. -/
theorem dnt_include_iff_subset_witness :
    (dnt_include 'G' 'R' = some true ↔
      ∀ x ∈ (decompress_dnt 'G').getD [], x ∈ (decompress_dnt 'R').getD []) ∧
    (dnt_include 'G' 'R' = some true ↔
      (dnt_to_bits.lookup 'G').getD 0 &&& (dnt_to_bits.lookup 'R').getD 0 =
        (dnt_to_bits.lookup 'G').getD 0) :=
  dnt_include_iff_subset 'G' (by decide) 'R' (by decide)

/-! ## Generic dictionary lemmas

Python dicts are embedded as association lists searched front to back with
`List.lookup`; these lemmas relate such lookups to list indexing. -/

theorem lookup_append {α β : Type} [BEq α] (l₁ l₂ : List (α × β)) (a : α) :
    (l₁ ++ l₂).lookup a = (l₁.lookup a).or (l₂.lookup a) := by
  induction l₁ with
  | nil => simp [List.lookup]
  | cons p l ih =>
    obtain ⟨k, v⟩ := p
    cases hak : a == k <;> simp [List.lookup, hak, ih]

theorem lookup_eq_none_of_not_mem {α β : Type} [BEq α] [LawfulBEq α]
    (l : List (α × β)) (a : α) (h : a ∉ l.map Prod.fst) : l.lookup a = none := by
  induction l with
  | nil => rfl
  | cons p l ih =>
    obtain ⟨k, v⟩ := p
    simp only [List.map_cons, List.mem_cons, not_or] at h
    have hak : (a == k) = false := by simpa using h.1
    simp [List.lookup, hak, ih h.2]

theorem lookup_reverse {α β : Type} [BEq α] [LawfulBEq α] (l : List (α × β))
    (h : (l.map Prod.fst).Nodup) (a : α) : l.reverse.lookup a = l.lookup a := by
  induction l with
  | nil => rfl
  | cons p l ih =>
    obtain ⟨k, v⟩ := p
    simp only [List.map_cons, List.nodup_cons] at h
    rw [List.reverse_cons, lookup_append, ih h.2]
    by_cases hak : a = k
    · subst hak
      rw [lookup_eq_none_of_not_mem l a h.1]
      simp [List.lookup]
    · have hb : (a == k) = false := by simpa using hak
      simp [List.lookup, hb]

theorem lookup_enumFrom {α : Type} (l : List α) (k i : Nat) :
    (l.enumFrom k).lookup (k + i) = l[i]? := by
  induction l generalizing k i with
  | nil => simp [List.lookup]
  | cons a l ih =>
    cases i with
    | zero => simp [List.enumFrom, List.lookup]
    | succ i =>
      have hne : (k + (i + 1) == k) = false := by
        simp only [beq_eq_false_iff_ne, ne_eq]
        omega
      have ih' := ih (k + 1) i
      rw [show (k + 1) + i = k + (i + 1) from by omega] at ih'
      show List.lookup (k + (i + 1)) ((k, a) :: l.enumFrom (k + 1)) = (a :: l)[i + 1]?
      simp only [List.lookup, hne, List.getElem?_cons_succ]
      exact ih'

theorem lookup_enum {α : Type} (l : List α) (i : Nat) : l.enum.lookup i = l[i]? := by
  have := lookup_enumFrom l 0 i
  simpa [List.enum] using this

theorem lookup_swap_enumFrom {α : Type} [BEq α] [LawfulBEq α] (l : List α)
    (hl : l.Nodup) (k i : Nat) (h : i < l.length) :
    ((l.enumFrom k).map Prod.swap).lookup (l.get ⟨i, h⟩) = some (k + i) := by
  induction l generalizing k i with
  | nil => simp at h
  | cons a l ih =>
    simp only [List.nodup_cons] at hl
    cases i with
    | zero =>
      show List.lookup a ((a, k) :: (l.enumFrom (k + 1)).map Prod.swap) = some (k + 0)
      simp [List.lookup]
    | succ i =>
      have h' : i < l.length := by simpa using h
      have hmem : l.get ⟨i, h'⟩ ∈ l := List.get_mem l i h'
      have hne : (l.get ⟨i, h'⟩ == a) = false := by
        simp only [beq_eq_false_iff_ne, ne_eq]
        intro heq
        exact hl.1 (heq ▸ hmem)
      have hstep : (k + 1) + i = k + (i + 1) := by omega
      show List.lookup ((a :: l).get ⟨i + 1, h⟩)
        ((a, k) :: (l.enumFrom (k + 1)).map Prod.swap) = some (k + (i + 1))
      rw [show (a :: l).get ⟨i + 1, h⟩ = l.get ⟨i, h'⟩ from rfl]
      rw [List.lookup, hne, ih hl.2 (k + 1) i h', hstep]

theorem lookup_swap_enum {α : Type} [BEq α] [LawfulBEq α] (l : List α)
    (hl : l.Nodup) (i : Nat) (h : i < l.length) :
    ((l.enum.map Prod.swap)).lookup (l.get ⟨i, h⟩) = some i := by
  have := lookup_swap_enumFrom l hl 0 i h
  simpa [List.enum] using this

/-! ## convert/degenerate.py: degenerate codons -/

/-- combinatorics.py `unspread(seq, n, offset)`: `np.roll(seq, -offset)`,
then chunks of `ceil(len(seq)/n)`, transposed with `zip_longest` (dropping
the `None` padding, which is exactly `List.transpose`) and concatenated. -/
def unspread {α : Type} (seq : List α) (n : Nat) (offset : Nat) : List α :=
  let uncut := seq.rotate offset
  ((uncut.toChunks ((seq.length + n - 1) / n)).transpose).flatten

/-- degenerate.py `binomial_dnt`: the 16 symbols listed by rising degeneracy
degree. -/
def binomial_order : List Char :=
  ['Z', 'G', 'A', 'C', 'T', 'R', 'S', 'K', 'M', 'W', 'Y', 'V', 'D', 'B', 'H', 'N']

/-- degenerate.py `degenerate = binomial_dnt(BASE_ORDER)`:
`OrderedDict(enumerate(unspread(binomial_order, len(bases), 1)))`. -/
def degenerate : List (Nat × Char) :=
  (unspread binomial_order BASE_ORDER.length 1).enum

/-- degenerate.py `inv_degenerate = inverse_od(degenerate)`. -/
def inv_degenerate : List (Char × Nat) := inverse_od degenerate

/-- degenerate.py `num_to_dnt`: convert a number (<16) to a degenerate
nucleotide symbol. -/
def num_to_dnt (num : Nat) : Option Char := degenerate.lookup num

/-- degenerate.py `dnt_to_num`: convert a degenerate nucleotide symbol to a
number (<16). -/
def dnt_to_num (dnt : Char) : Option Nat := inv_degenerate.lookup dnt

/-- degenerate.py `degenerate_codons()`: all 4096 three-symbol strings over
the 16 symbols, in `itertools.product` order. -/
def degenerate_codons : List String :=
  let symbols := degenerate.map Prod.snd
  symbols.flatMap fun a => symbols.flatMap fun b => symbols.map fun c => str_join [a, b, c]

/-- degenerate.py `inv_degen_codons = OrderedDict([*enumerate(degenerate_codons())])`. -/
def inv_degen_codons : List (Nat × String) := degenerate_codons.enum

/-- degenerate.py `degen_codons = inverse_od(inv_degen_codons)`. -/
def degen_codons : List (String × Nat) := inverse_od inv_degen_codons

def CODON_LEN : Nat := 3

def DEGEN_MAX : Nat := 4096

/-- degenerate.py `degen_to_num`: `assert len(codon) == 3`, then dict
lookup; both failures yield `none`. -/
def degen_to_num (codon : String) : Option Nat :=
  if codon.length = CODON_LEN then degen_codons.lookup codon else none

/-- degenerate.py `num_to_degen`: `assert code < 4096`, then dict lookup. -/
def num_to_degen (code : Nat) : Option String :=
  if code < DEGEN_MAX then inv_degen_codons.lookup code else none

/-- codon.py `CODONS_LEN = 64`. -/
def CODONS_LEN : Nat := 64

theorem str_join3_inj {a b c a' b' c' : Char}
    (h : str_join [a, b, c] = str_join [a', b', c']) : a = a' ∧ b = b' ∧ c = c' := by
  simpa [str_join, String.ext_iff] using h

/-- The triple product of a duplicate-free symbol list has no duplicate
codon strings. -/
theorem nodup_product3 (symbols : List Char) (h : symbols.Nodup) :
    (symbols.flatMap fun a =>
      symbols.flatMap fun b => symbols.map fun c => str_join [a, b, c]).Nodup := by
  rw [List.nodup_flatMap]
  refine ⟨fun a _ => ?_, ?_⟩
  · rw [List.nodup_flatMap]
    refine ⟨fun b _ => ?_, ?_⟩
    · refine h.map ?_
      intro c c' hcc
      exact (str_join3_inj hcc).2.2
    · refine h.imp ?_
      intro b b' hne x hx hx'
      simp only [List.mem_map] at hx hx'
      obtain ⟨c, _, rfl⟩ := hx
      obtain ⟨c', _, heq⟩ := hx'
      exact hne ((str_join3_inj heq.symm).2.1)
  · refine h.imp ?_
    intro a a' hne x hx hx'
    simp only [List.mem_flatMap, List.mem_map] at hx hx'
    obtain ⟨b, _, c, _, rfl⟩ := hx
    obtain ⟨b', _, c', _, heq⟩ := hx'
    exact hne ((str_join3_inj heq.symm).1)

set_option maxRecDepth 40000 in
theorem degenerate_symbols_nodup : (degenerate.map Prod.snd).Nodup := by decide

theorem degenerate_codons_nodup : degenerate_codons.Nodup :=
  nodup_product3 _ degenerate_symbols_nodup

theorem length_product3 (symbols : List Char) :
    (symbols.flatMap fun a =>
      symbols.flatMap fun b => symbols.map fun c => str_join [a, b, c]).length
      = symbols.length * (symbols.length * symbols.length) := by
  rw [List.length_flatMap]
  have h1 : (symbols.map (List.length ∘ fun a =>
      symbols.flatMap fun b => symbols.map fun c => str_join [a, b, c])) =
      symbols.map fun _ => symbols.length * symbols.length := by
    apply List.map_congr_left
    intro a _
    show (symbols.flatMap fun b => symbols.map fun c => str_join [a, b, c]).length = _
    rw [List.length_flatMap]
    have h2 : (symbols.map (List.length ∘ fun b => symbols.map fun c => str_join [a, b, c])) =
        symbols.map fun _ => symbols.length := by
      apply List.map_congr_left
      intro b _
      show (symbols.map fun c => str_join [a, b, c]).length = _
      rw [List.length_map]
    rw [h2, List.map_const', List.sum_replicate, smul_eq_mul]
  rw [h1, List.map_const', List.sum_replicate, smul_eq_mul]

theorem degenerate_codons_length : degenerate_codons.length = 4096 := by
  have h := length_product3 (degenerate.map Prod.snd)
  have hs : (degenerate.map Prod.snd).length = 16 := by decide
  rw [hs] at h
  exact h

theorem degenerate_codons_elt_length :
    ∀ c ∈ degenerate_codons, c.length = 3 := by
  intro c hc
  simp only [degenerate_codons, List.mem_flatMap, List.mem_map] at hc
  obtain ⟨a, _, b, _, d, _, rfl⟩ := hc
  rfl

/-- C3: degenerate-codon numbering round-trips on 0..4095, `num_to_degen`
fails (assert) on codes ≥ 4096, and `degen_to_num` fails (assert) on strings
whose length is not 3. -/
theorem degen_num_bijection :
    (∀ x : Nat, x < 4096 → (num_to_degen x).bind degen_to_num = some x) ∧
    (∀ x : Nat, 4096 ≤ x → num_to_degen x = none) ∧
    (∀ c : String, c.length ≠ 3 → degen_to_num c = none) := by
  refine ⟨?_, ?_, ?_⟩
  · intro x hx
    have hlen : x < degenerate_codons.length := by rw [degenerate_codons_length]; exact hx
    have h1 : num_to_degen x = some (degenerate_codons.get ⟨x, hlen⟩) := by
      unfold num_to_degen
      rw [if_pos (show x < DEGEN_MAX from hx), inv_degen_codons, lookup_enum]
      exact List.getElem?_eq_getElem hlen
    have h3 : (degenerate_codons.get ⟨x, hlen⟩).length = 3 :=
      degenerate_codons_elt_length _ (List.get_mem degenerate_codons x hlen)
    have h2 : degen_to_num (degenerate_codons.get ⟨x, hlen⟩) = some x := by
      unfold degen_to_num
      rw [if_pos (by rw [h3]; rfl)]
      show (inverse_od inv_degen_codons).lookup _ = some x
      unfold inverse_od
      rw [lookup_reverse _ (by
            rw [List.map_map]
            have hcomp : (Prod.fst ∘ Prod.swap : Nat × String → String) = Prod.snd := rfl
            rw [inv_degen_codons, hcomp, List.enum_map_snd]
            exact degenerate_codons_nodup)]
      rw [inv_degen_codons]
      exact lookup_swap_enum degenerate_codons degenerate_codons_nodup x hlen
    rw [h1]
    simpa using h2
  · intro x hx
    unfold num_to_degen
    rw [if_neg (show ¬ x < DEGEN_MAX from by unfold DEGEN_MAX; omega)]
  · intro c hc
    unfold degen_to_num
    rw [if_neg (by simpa [CODON_LEN] using hc)]

/-- C3 witness: the round trip instantiated at code 4095 and the failure
cases at 4096 and at the two-letter string "GA". -/
theorem degen_num_bijection_witness :
    (num_to_degen 4095).bind degen_to_num = some 4095 ∧
    num_to_degen 4096 = none ∧ degen_to_num "GA" = none :=
  ⟨degen_num_bijection.1 4095 (by decide),
   degen_num_bijection.2.1 4096 (by decide),
   degen_num_bijection.2.2 "GA" (by decide)⟩

/-! ## io/fasta.py: IUPAC alphabets -/

/-- io/fasta.py `AMINO`. -/
def AMINO : List Char := "GEDAVRSKNTMIQHPLW*CYFUO".toList

/-- io/fasta.py `AMINO_DEGENERATE`. -/
def AMINO_DEGENERATE : List Char := "BJZX-".toList

/-- io/fasta.py `BASE`. -/
def BASE : List Char := "ACGTU".toList

/-- io/fasta.py `BASE_NONCODING = BASE.lower()`. -/
def BASE_NONCODING : List Char := "acgtu".toList

/-- io/fasta.py `DEGENERATE`. -/
def DEGENERATE : List Char := "WSMKRYBDHVNZ-".toList

/-! ## convert/genetic_code.py: genetic code tables -/

/-- genetic_code.py `CODONS_NCBI = codons_array('TCAG')`. -/
def CODONS_NCBI : List String := codons_array ['T', 'C', 'A', 'G']

/-- genetic_code.py `GeneticCode` named tuple.  The start/stop sets are
Python sets, embedded as deduplicated lists compared by mutual containment. -/
structure GeneticCode where
  code : List (String × Char)
  start : List String
  stop : List String
deriving DecidableEq

/-- fun.py `find_offsets`.  Modelled from the spec: the function is imported
from `serpent.fun` but missing from the sources.  Per the spec, each table
has "a matching `special` marker string flagging start codons ('M') and stop
codons ('*')", whose marker positions select codons, so
`find_offsets(special, marker)` yields the offsets at which the marker
character occurs in the string. -/
def find_offsets (special : List Char) (marker : Char) : List Nat :=
  (special.enum.filter fun p => p.2 == marker).map Prod.fst

/-- genetic_code.py `special_set`: `set(codons[[*find_offsets(special,
marker)]])`.  In every use the offsets lie below `len(codons)` (both have 64
entries), so the `getD` default is never taken. -/
def special_set (codons : List String) (special : List Char) (marker : Char) : List String :=
  ((find_offsets special marker).map fun i => codons.getD i "").dedup

/-- genetic_code.py `genetic_code_map`: `OrderedDict(zip(codons, table))`
followed by `assert len(table) == CODONS_LEN`.  `zip` truncates to the
shorter input; the codon keys are distinct in every use, so the dict size is
the zipped length. -/
def genetic_code_map (table : List Char) (codons : List String) :
    Option (List (String × Char)) :=
  let zipped := codons.zip table
  if zipped.length = CODONS_LEN then some zipped else none

/-- genetic_code.py `code_table`: `assert len(code) == len(special) ==
CODONS_LEN`, then build the codon→amino map and the start/stop codon sets
from the 'M' and '*' marker positions. -/
def code_table (code : List Char) (special : List Char) (codons : List String) :
    Option GeneticCode :=
  if code.length = CODONS_LEN ∧ special.length = CODONS_LEN then
    (genetic_code_map code codons).map fun m =>
      { code := m
        start := special_set codons special 'M'
        stop := special_set codons special '*' }
  else none

/-- genetic_code.py `sgc`: reverse the codon ordering and both strings, then
build the table. -/
def sgc (code : List Char) (special : List Char)
    (codons : List String := CODONS_NCBI) : Option GeneticCode :=
  code_table code.reverse special.reverse codons.reverse

/-- The raw `(id, code, special)` strings of `STANDARD_TABLES`. -/
def STANDARD_TABLES_DATA : List (Nat × String × String) := [
  (1, "FFLLSSSSYY**CC*WLLLLPPPPHHQQRRRRIIIMTTTTNNKKSSRRVVVVAAAADDEEGGGG",
      "---M------**--*----M---------------M----------------------------"),
  (2, "FFLLSSSSYY**CCWWLLLLPPPPHHQQRRRRIIMMTTTTNNKKSS**VVVVAAAADDEEGGGG",
      "----------**--------------------MMMM----------**---M------------"),
  (3, "FFLLSSSSYY**CCWWTTTTPPPPHHQQRRRRIIMMTTTTNNKKSSRRVVVVAAAADDEEGGGG",
      "----------**----------------------MM---------------M------------"),
  (4, "FFLLSSSSYY**CCWWLLLLPPPPHHQQRRRRIIIMTTTTNNKKSSRRVVVVAAAADDEEGGGG",
      "--MM------**-------M------------MMMM---------------M------------"),
  (5, "FFLLSSSSYY**CCWWLLLLPPPPHHQQRRRRIIMMTTTTNNKKSSSSVVVVAAAADDEEGGGG",
      "---M------**--------------------MMMM---------------M------------"),
  (6, "FFLLSSSSYYQQCC*WLLLLPPPPHHQQRRRRIIIMTTTTNNKKSSRRVVVVAAAADDEEGGGG",
      "--------------*--------------------M----------------------------"),
  (9, "FFLLSSSSYY**CCWWLLLLPPPPHHQQRRRRIIIMTTTTNNNKSSSSVVVVAAAADDEEGGGG",
      "----------**-----------------------M---------------M------------"),
  (10, "FFLLSSSSYY**CCCWLLLLPPPPHHQQRRRRIIIMTTTTNNKKSSRRVVVVAAAADDEEGGGG",
      "----------**-----------------------M----------------------------"),
  (11, "FFLLSSSSYY**CC*WLLLLPPPPHHQQRRRRIIIMTTTTNNKKSSRRVVVVAAAADDEEGGGG",
      "---M------**--*----M------------MMMM---------------M------------"),
  (12, "FFLLSSSSYY**CC*WLLLSPPPPHHQQRRRRIIIMTTTTNNKKSSRRVVVVAAAADDEEGGGG",
      "----------**--*----M---------------M----------------------------"),
  (13, "FFLLSSSSYY**CCWWLLLLPPPPHHQQRRRRIIMMTTTTNNKKSSGGVVVVAAAADDEEGGGG",
      "---M------**----------------------MM---------------M------------"),
  (14, "FFLLSSSSYYY*CCWWLLLLPPPPHHQQRRRRIIIMTTTTNNNKSSSSVVVVAAAADDEEGGGG",
      "-----------*-----------------------M----------------------------"),
  (16, "FFLLSSSSYY*LCC*WLLLLPPPPHHQQRRRRIIIMTTTTNNKKSSRRVVVVAAAADDEEGGGG",
      "----------*---*--------------------M----------------------------"),
  (21, "FFLLSSSSYY**CCWWLLLLPPPPHHQQRRRRIIMMTTTTNNNKSSSSVVVVAAAADDEEGGGG",
      "----------**-----------------------M---------------M------------"),
  (22, "FFLLSS*SYY*LCC*WLLLLPPPPHHQQRRRRIIIMTTTTNNKKSSRRVVVVAAAADDEEGGGG",
      "------*---*---*--------------------M----------------------------"),
  (23, "FF*LSSSSYY**CC*WLLLLPPPPHHQQRRRRIIIMTTTTNNKKSSRRVVVVAAAADDEEGGGG",
      "--*-------**--*-----------------M--M---------------M------------"),
  (24, "FFLLSSSSYY**CCWWLLLLPPPPHHQQRRRRIIIMTTTTNNKKSSSKVVVVAAAADDEEGGGG",
      "---M------**-------M---------------M---------------M------------"),
  (25, "FFLLSSSSYY**CCGWLLLLPPPPHHQQRRRRIIIMTTTTNNKKSSRRVVVVAAAADDEEGGGG",
      "---M------**-----------------------M---------------M------------"),
  (26, "FFLLSSSSYY**CC*WLLLAPPPPHHQQRRRRIIIMTTTTNNKKSSRRVVVVAAAADDEEGGGG",
      "----------**--*----M---------------M----------------------------"),
  (27, "FFLLSSSSYYQQCCWWLLLLPPPPHHQQRRRRIIIMTTTTNNKKSSRRVVVVAAAADDEEGGGG",
      "--------------*--------------------M----------------------------"),
  (28, "FFLLSSSSYYQQCCWWLLLLPPPPHHQQRRRRIIIMTTTTNNKKSSRRVVVVAAAADDEEGGGG",
      "----------**--*--------------------M----------------------------"),
  (29, "FFLLSSSSYYYYCC*WLLLLPPPPHHQQRRRRIIIMTTTTNNKKSSRRVVVVAAAADDEEGGGG",
      "--------------*--------------------M----------------------------"),
  (30, "FFLLSSSSYYEECC*WLLLLPPPPHHQQRRRRIIIMTTTTNNKKSSRRVVVVAAAADDEEGGGG",
      "--------------*--------------------M----------------------------"),
  (31, "FFLLSSSSYYEECCWWLLLLPPPPHHQQRRRRIIIMTTTTNNKKSSRRVVVVAAAADDEEGGGG",
      "----------**-----------------------M----------------------------"),
  (33, "FFLLSSSSYYY*CCWWLLLLPPPPHHQQRRRRIIIMTTTTNNKKSSSKVVVVAAAADDEEGGGG",
      "---M-------*-------M---------------M---------------M------------")]

/-- genetic_code.py `STANDARD_TABLES`: each entry built with `sgc`. -/
def STANDARD_TABLES : List (Nat × Option GeneticCode) :=
  STANDARD_TABLES_DATA.map fun e => (e.1, sgc e.2.1.toList e.2.2.toList)

/-- genetic_code.py `GENETIC_CODE = {key: table.code}`.  Every `sgc` call
succeeds (the strings all have 64 characters), so the `filterMap` drops
nothing. -/
def GENETIC_CODE : List (Nat × List (String × Char)) :=
  STANDARD_TABLES.filterMap fun e => e.2.map fun g => (e.1, g.code)

theorem codons_ncbi_nodup : CODONS_NCBI.Nodup :=
  nodup_product3 _ (by decide)

/-- The codons selected by a marker in a special string, read off the
unreversed NCBI codon order. -/
def marked_codons (special : String) (marker : Char) : List String :=
  ((CODONS_NCBI.zip special.toList).filter fun p => p.2 == marker).map Prod.fst

/-- C9: every supported genetic code table is built successfully, maps
exactly the same 64 codon keys (the NCBI codons, in `sgc`'s reversed
order), each to a letter of the fixed amino alphabet, with start and stop
codon sets exactly the codons at 'M' and '*' positions of its special
marker string; and `code_table` fails whenever the code or special string is
not exactly 64 characters long. -/
theorem genetic_code_tables_wellformed :
    (CODONS_NCBI.Nodup ∧ CODONS_NCBI.length = 64) ∧
    (∀ e ∈ STANDARD_TABLES_DATA,
      ((sgc e.2.1.toList e.2.2.toList).map fun g => g.code.map Prod.fst) =
        some CODONS_NCBI.reverse ∧
      ((sgc e.2.1.toList e.2.2.toList).map fun g =>
        decide (∀ p ∈ g.code, p.2 ∈ AMINO)) = some true ∧
      ((sgc e.2.1.toList e.2.2.toList).map fun g =>
        decide ((∀ x ∈ g.start, x ∈ marked_codons e.2.2 'M') ∧
          (∀ x ∈ marked_codons e.2.2 'M', x ∈ g.start))) = some true ∧
      ((sgc e.2.1.toList e.2.2.toList).map fun g =>
        decide ((∀ x ∈ g.stop, x ∈ marked_codons e.2.2 '*') ∧
          (∀ x ∈ marked_codons e.2.2 '*', x ∈ g.stop))) = some true) ∧
    (∀ (code special : List Char) (codons : List String),
      code.length ≠ 64 ∨ special.length ≠ 64 →
        code_table code special codons = none) := by
  refine ⟨⟨codons_ncbi_nodup, by decide⟩, by decide, ?_⟩
  intro code special codons h
  unfold code_table
  rw [if_neg]
  intro hlen
  rcases h with h | h
  · exact h (by simpa [CODONS_LEN] using hlen.1)
  · exact h (by simpa [CODONS_LEN] using hlen.2)

/-- C9 witness: the key-list conjunct instantiated at table 1 and the
failure conjunct at a 3-character code string. -/
theorem genetic_code_tables_wellformed_witness :
    (((sgc ("FFLLSSSSYY**CC*WLLLLPPPPHHQQRRRRIIIMTTTTNNKKSSRRVVVVAAAADDEEGGGG").toList
        ("---M------**--*----M---------------M----------------------------").toList).map
        fun g => g.code.map Prod.fst) = some CODONS_NCBI.reverse) ∧
    code_table "GAC".toList "---".toList CODONS_NCBI = none :=
  ⟨(genetic_code_tables_wellformed.2.1
      (1, "FFLLSSSSYY**CC*WLLLLPPPPHHQQRRRRIIIMTTTTNNKKSSRRVVVVAAAADDEEGGGG",
          "---M------**--*----M---------------M----------------------------")
      (by decide)).1,
   genetic_code_tables_wellformed.2.2 "GAC".toList "---".toList CODONS_NCBI (by decide)⟩

/-! ## convert/amino.py: amino acid conversions -/

/-- amino.py `create_genetic_table(table)`: the argument received from
`GENETIC_CODE` is the codon→amino *dict* of a `GeneticCode`; iterating a
Python dict (as `zip` does) yields its keys, so `zip(CODONS_NCBI, table)`
pairs the NCBI codons with the table's codon keys.  The model therefore
takes the key list.  `assert len(table) == 64` fails as `none`; `reversed`
flips the pair order (amino.py recomputes `CODONS_NCBI = codons_array('TCAG')`
identically to genetic_code.py). -/
def create_genetic_table (keys : List String) : Option (List (String × String)) :=
  if keys.length = CODONS_LEN then some ((CODONS_NCBI.zip keys).reverse) else none

/-- amino.py `genetic_code`: per-table result of `create_genetic_table`. -/
def amino_genetic_code : List (Nat × Option (List (String × String))) :=
  GENETIC_CODE.map fun e => (e.1, create_genetic_table (e.2.map Prod.fst))

/-- amino.py `genetic_code_inverse = {i: inverse_od(table)}`. -/
def amino_genetic_code_inverse : List (Nat × Option (List (String × String))) :=
  amino_genetic_code.map fun e => (e.1, e.2.map inverse_od)

/-- amino.py `degenerate_amino`: the hard-coded degenerate codon → folded
amino letter map. -/
def degenerate_amino : List (String × String) :=
  [("RAY", "B"), ("MUH", "J"), ("SAR", "Z"), ("NNN", "X"), ("TAY", "*"), ("ZZZ", "-")]

/-- amino.py `degenerate_codon = inverse_od(degenerate_amino)`. -/
def degenerate_codon : List (String × String) := inverse_od degenerate_amino

/-- amino.py `amino_to_codon`: `degenerate_codon.get(amino) or
genetic_code_inverse[table][amino]`.  Every codon stored in
`degenerate_codon` is a non-empty (truthy) string, so a hit short-circuits;
otherwise a missing table id or amino letter raises `KeyError` (`none`). -/
def amino_to_codon (amino : String) (table : Nat) : Option String :=
  match degenerate_codon.lookup amino with
  | some c => some c
  | none =>
    (amino_genetic_code_inverse.lookup table).bind fun t => t.bind fun m => m.lookup amino

/-- amino.py `amino_to_num`: the `try` catches the `KeyError` of
`amino_to_codon` and returns 0; the final `codon_to_num` call sits outside
the handler, so its `KeyError` propagates (`none`). -/
def amino_to_num (amino : String) (table : Nat) : Option Nat :=
  match amino_to_codon amino table with
  | none => some 0
  | some codon => codon_to_num codon

/-- C10: with table 1, each of the letters B, J, Z, X, *, - is mapped by
`amino_to_codon` to a degenerate codon string that is not a key of the
64-codon table, so `amino_to_num` ends in an uncaught `KeyError` (`none`)
instead of returning a number, while a letter unknown to `degenerate_codon`
(here 'Q') fails inside the handler and decodes to 0. -/
theorem amino_to_num_degenerate_keyerror :
    amino_to_codon "B" 1 = some "RAY" ∧ codon_to_num "RAY" = none ∧
      amino_to_num "B" 1 = none ∧
    amino_to_codon "J" 1 = some "MUH" ∧ codon_to_num "MUH" = none ∧
      amino_to_num "J" 1 = none ∧
    amino_to_codon "Z" 1 = some "SAR" ∧ codon_to_num "SAR" = none ∧
      amino_to_num "Z" 1 = none ∧
    amino_to_codon "X" 1 = some "NNN" ∧ codon_to_num "NNN" = none ∧
      amino_to_num "X" 1 = none ∧
    amino_to_codon "*" 1 = some "TAY" ∧ codon_to_num "TAY" = none ∧
      amino_to_num "*" 1 = none ∧
    amino_to_codon "-" 1 = some "ZZZ" ∧ codon_to_num "ZZZ" = none ∧
      amino_to_num "-" 1 = none ∧
    amino_to_num "Q" 1 = some 0 := by
  decide

/-! ## Degenerate codon to amino resolution (spec §4.4) -/

/-- Modelled from the spec: `snp_to_degen` compresses the base set at the
varying (wobble) position of an SNP group into its ambiguity symbol, which
is dnt.py's `compress_dntset`.  The function itself is referenced by the
spec but missing from the sources. -/
def snp_to_degen (bases : List Char) : Option Char := compress_dntset bases

/-- The third-position bases of the codons of `tbl` that share the given
two-symbol prefix and amino acid. -/
def degen_thirds (tbl : List (String × Char)) (pre : List Char) (a : Char) : List Char :=
  tbl.filterMap fun p =>
    if p.1.toList.take 2 == pre && p.2 == a then (p.1.toList.drop 2).head? else none

/-- Modelled from the spec: the minimal degenerate-codon→amino map used by
`degen_to_amino` (missing from the sources; its expected values survive in
the `fixed_degen_to_amino` test fixture).  The 64 concrete codons are
grouped by amino acid, each group is split by its two-symbol prefix, and the
third-position base set of each subgroup is compressed into its ambiguity
symbol. -/
def degen_map (tbl : List (String × Char)) : List (String × Char) :=
  ((tbl.map fun p => p.1.toList.take 2).dedup).flatMap fun pre =>
    ((tbl.map Prod.snd).dedup).filterMap fun a =>
      if degen_thirds tbl pre a = [] then none
      else (snp_to_degen (degen_thirds tbl pre a)).map fun d => (str_join (pre ++ [d]), a)

/-- Modelled from the spec: `degen_to_amino(codon, table)` searches the
canonical entries sharing the query's two-symbol prefix and picks one whose
third-position symbol mask includes the query's third symbol
(`dnt_include`); it returns 'X' if none matches.  An unknown table id is a
lookup failure (`none`). -/
def degen_to_amino (codon : String) (table : Nat) : Option Char :=
  (GENETIC_CODE.lookup table).map fun tbl =>
    match ((degen_map tbl).filter fun p =>
        p.1.toList.take 2 == codon.toList.take 2).find? fun p =>
          (((codon.toList.drop 2).head?).bind fun q =>
            ((p.1.toList.drop 2).head?).bind fun k => dnt_include q k) == some true with
    | some p => p.2
    | none => 'X'

theorem mem_of_lookup_eq_some {α β : Type} [BEq α] [LawfulBEq α]
    {l : List (α × β)} {a : α} {b : β} (h : l.lookup a = some b) : (a, b) ∈ l := by
  induction l with
  | nil => simp [List.lookup] at h
  | cons p l ih =>
    obtain ⟨k, v⟩ := p
    by_cases hak : a == k
    · have : a = k := by simpa using hak
      subst this
      simp only [List.lookup, BEq.refl] at h
      cases h
      exact List.mem_cons_self _ _
    · have hf : (a == k) = false := by simpa using hak
      simp only [List.lookup, hf] at h
      exact List.mem_cons_of_mem _ (ih h)

theorem degen_map_snd_mem (tbl : List (String × Char)) (p : String × Char)
    (hp : p ∈ degen_map tbl) : p.2 ∈ tbl.map Prod.snd := by
  unfold degen_map at hp
  simp only [List.mem_flatMap, List.mem_filterMap] at hp
  obtain ⟨pre, _, a, ha, hopt⟩ := hp
  split at hopt
  · simp at hopt
  · rw [Option.map_eq_some'] at hopt
    obtain ⟨d, _, heq⟩ := hopt
    have : p.2 = a := by rw [← heq]
    rw [this]
    exact List.mem_dedup.mp ha

theorem genetic_code_values_no_folded :
    ∀ e ∈ GENETIC_CODE, ∀ v ∈ e.2.map Prod.snd, v ≠ 'B' ∧ v ≠ 'J' ∧ v ≠ 'Z' := by
  decide

/-- C6: degenerate-codon-to-amino resolution never produces the folded
ambiguity amino letters B, J or Z for any input codon and table; unresolved
ambiguity is signalled only by the 'X' fallback of the prefix search. -/
theorem degen_to_amino_no_folded (codon : String) (table : Nat) (r : Char)
    (h : degen_to_amino codon table = some r) : r ≠ 'B' ∧ r ≠ 'J' ∧ r ≠ 'Z' := by
  unfold degen_to_amino at h
  rw [Option.map_eq_some'] at h
  obtain ⟨tbl, htbl, hr⟩ := h
  revert hr
  cases hfind : ((degen_map tbl).filter fun p =>
      p.1.toList.take 2 == codon.toList.take 2).find? fun p =>
        (((codon.toList.drop 2).head?).bind fun q =>
          ((p.1.toList.drop 2).head?).bind fun k => dnt_include q k) == some true with
  | none =>
    intro hr
    rw [← hr]
    decide
  | some p =>
    intro hr
    have hp2 : p ∈ degen_map tbl :=
      (List.mem_filter.mp (List.mem_of_find?_eq_some hfind)).1
    have hv : p.2 ∈ tbl.map Prod.snd := degen_map_snd_mem tbl p hp2
    rw [← hr]
    exact genetic_code_values_no_folded (table, tbl) (mem_of_lookup_eq_some htbl) p.2 hv

/-- C6 witness: the fully degenerate glycine codon GGN resolves to 'G' under
table 1, which is none of B, J, Z. -/
theorem degen_to_amino_no_folded_witness :
    degen_to_amino "GGN" 1 = some 'G' ∧ ('G' ≠ 'B' ∧ 'G' ≠ 'J' ∧ 'G' ≠ 'Z') :=
  ⟨by decide, degen_to_amino_no_folded "GGN" 1 'G' (by decide)⟩

/-! ## convert/digits.py and dna.py: decoding -/

/-- more_itertools `grouper(data, n, incomplete='fill', fillvalue=fill)`:
chunks of n, the last one padded with the fill value.  (With n = 0 Python's
`zip` of zero iterators yields nothing.) -/
def grouper {α : Type} (n : Nat) (fill : α) (data : List α) : List (List α) :=
  if n = 0 then []
  else (data.toChunks n).map fun c => c ++ List.replicate (n - c.length) fill

/-- digits.py `digits_to_num(seq, base)`: big-endian digit fold,
`number += base ** i * digit` over the reversed sequence. -/
def digits_to_num (seq : List Nat) (base : Nat) : Nat :=
  (seq.reverse.enum).foldl (fun number p => number + base ^ p.1 * p.2) 0

/-- digits.py `change_base(decoded, base, n, fill)`: regroup a digit stream
into n-digit chunks read as numbers in base `base`. -/
def change_base (decoded : List Nat) (base n fill : Nat) : List Nat :=
  (grouper n fill decoded).map fun d => digits_to_num d base

/-- dna.py `get_codons_iter(data, fill='A')`: group characters into threes,
fill the last group, and join each group into a codon string. -/
def get_codons_iter (data : List Char) (fill : Char) : List String :=
  (grouper 3 fill data).map str_join

/-- dna.py `get_codons(data, fill='A')` (the Numpy array is embedded as the
list of codon strings). -/
def get_codons (data : String) (fill : Char := 'A') : List String :=
  get_codons_iter data.toList fill

/-- dna.py `cleaned_and_residual`'s `CODES` alphabet for the given mode.
dna.py takes these constants from the FASTA module; io/fasta.py defines
every imported name. -/
def dna_codes (amino degen : Bool) : List Char :=
  if amino then (if degen then AMINO ++ AMINO_DEGENERATE else AMINO)
  else (if degen then BASE ++ BASE_NONCODING ++ DEGENERATE
        else BASE ++ BASE_NONCODING)

/-- The ASCII whitespace matched by `RE_WHITESPACE` (`\s`). -/
def is_whitespace (c : Char) : Bool :=
  [' ', '\t', '\n', '\r', '\x0b', '\x0c'].contains c

/-- dna.py `cleaned_and_residual`: partition the data by membership of the
mode alphabet (`cleaned`, `residual`), then drop whitespace from the
residual. -/
def cleaned_and_residual (data : List Char) (amino degen : Bool) :
    List Char × List Char :=
  (data.filter fun c => (dna_codes amino degen).contains c,
   (data.filter fun c => !(dna_codes amino degen).contains c).filter
     fun c => !is_whitespace c)

/-- dna.py `clean_non_dna`: a non-empty residual is reported, and with
`degen` false the process exits fatally (`none`). -/
def clean_non_dna (data : List Char) (amino degen : Bool) : Option (List Char) :=
  if (cleaned_and_residual data amino degen).2 ≠ [] ∧ degen = false then none
  else some (cleaned_and_residual data amino degen).1

/-- dna.py `decode_iter` for the nucleotide modes (`amino=False`; the
`amino=True` branch delegates to `decode_aminos`, which no claim exercises
and which is outside the embedded fragment): clean the data, then either
decode the degenerate symbols in base 16 three at a time
(`change_base(map(dnt_to_num, dna), 16, 3)`) or decode three-letter codons
with `codon_to_num`.  A `KeyError` in either conversion propagates when the
iterator is materialized (`none`). -/
def decode_iter (dna : List Char) (degen : Bool) : Option (List Nat) :=
  (clean_non_dna dna false degen).bind fun cleaned =>
    if degen then
      (cleaned.mapM dnt_to_num).map fun b16 => change_base b16 16 3 0
    else
      (get_codons_iter cleaned 'A').mapM codon_to_num

/-- dna.py `decode` (nucleotide modes): materialize `decode_iter` as an
array (int8 holds 0..63 and int32 holds 0..4095, so the dtype never
truncates). -/
def decode (dna : String) (degen : Bool := false) : Option (List Nat) :=
  decode_iter dna.toList degen

/-- C5: `get_codons("GGGAAACCCTTT")` yields the four codons, and decoding
the 24-base fixture with the default base order GACT and table 1 yields
`[0,21,42,63,15,31,47,63]`. -/
theorem get_codons_decode_scenario :
    get_codons "GGGAAACCCTTT" = ["GGG", "AAA", "CCC", "TTT"] ∧
    decode "GGGAAACCCTTTGTTATTCTTTTT" = some [0, 21, 42, 63, 15, 31, 47, 63] := by
  decide

/-! ## io/fasta.py: the FASTA tokenizer

`tokenize` evaluates a compiled regex alternation against the chunk.  Python
regex semantics mirrored by the embedding: the named alternatives are tried
left to right at each position; a character class `[...]+` greedily takes
the maximal same-class run; `RE_DESCRIPTION = '^[>;@].*'` matches only at
position 0 of the chunk (the pattern is compiled without `re.MULTILINE`) and
its `.*` stops before a newline; `NEWLINE` advances the line counter and the
column origin; `SKIP` takes a space/tab run; any other character is a
`MISMATCH`, raising `ParseError` whose message carries the character, line
and column. -/

/-- io/fasta.py `FastaToken`: `data` carries upper-cased sequence content,
`value` everything else. -/
structure FastaToken where
  type : String
  line : Nat
  column : Nat
  data : String := ""
  value : String := ""
deriving DecidableEq

/-- The payload of a raised `ParseError`: the unexpected character and the
line and column reported in its message. -/
structure ParseErr where
  char : Char
  line : Nat
  column : Nat
deriving DecidableEq

/-- io/fasta.py `get_token_specification`: the ordered data-token class
alternatives of the compiled pattern for each mode (they precede
DESCRIPTION, NEWLINE, SKIP and MISMATCH in the alternation). -/
def token_classes (amino : Bool) : List (String × List Char) :=
  if amino then [("AMINO", AMINO), ("AMINO_DEGENERATE", AMINO_DEGENERATE)]
  else [("BASE", BASE), ("BASE_NONCODING", BASE_NONCODING), ("DEGENERATE", DEGENERATE)]

/-- The description marker characters of `RE_DESCRIPTION = '^[>;@].*'`. -/
def markers : List Char := ['>', ';', '@']

/-- io/fasta.py `tokenize`'s scanning loop over one chunk.  The state is the
remaining characters, the absolute position, the current line number and the
line start offset (for columns, `matches.start() - line_start`).  The fuel
argument only drives the recursion: every step consumes at least one
character, so starting it at the chunk length it never runs out. -/
def tokenizeGo (amino : Bool) :
    Nat → List Char → Nat → Nat → Nat → Except ParseErr (List FastaToken)
  | 0, _, _, _, _ => .ok []
  | _ + 1, [], _, _, _ => .ok []
  | fuel + 1, c :: rest, pos, line, lineStart =>
    match (token_classes amino).find? fun k => k.2.contains c with
    | some k =>
      let run := c :: rest.takeWhile fun x => k.2.contains x
      (tokenizeGo amino fuel (rest.dropWhile fun x => k.2.contains x)
          (pos + run.length) line lineStart).map fun ts =>
        { type := k.1, line := line, column := pos - lineStart,
          data := str_join (run.map Char.toUpper) } :: ts
    | none =>
      if pos = 0 ∧ markers.contains c then
        let run := c :: rest.takeWhile fun x => x != '\n'
        (tokenizeGo amino fuel (rest.dropWhile fun x => x != '\n')
            (pos + run.length) line lineStart).map fun ts =>
          { type := "DESCRIPTION", line := line, column := pos - lineStart,
            value := str_join run } :: ts
      else if c = '\n' then
        tokenizeGo amino fuel rest (pos + 1) (line + 1) (pos + 1)
      else if c = ' ' ∨ c = '\t' then
        let run := c :: rest.takeWhile fun x => x == ' ' || x == '\t'
        tokenizeGo amino fuel (rest.dropWhile fun x => x == ' ' || x == '\t')
          (pos + run.length) line lineStart
      else
        .error { char := c, line := line, column := pos - lineStart }

/-- io/fasta.py `tokenize(data, amino, line)`. -/
def tokenize (data : String) (amino : Bool) (line : Nat) :
    Except ParseErr (List FastaToken) :=
  tokenizeGo amino data.toList.length data.toList 0 line 0

/-- The accepted alphabet of a mode: the class characters plus newline,
space and tab. -/
def acceptedChar (amino : Bool) (c : Char) : Bool :=
  ((token_classes amino).any fun k => k.2.contains c) ||
    c == '\n' || c == ' ' || c == '\t'

/-- Specification-side scan: the first character outside the accepted
alphabet, together with the line and column Python would report for it
(lines counted through newlines, columns from the last newline). -/
def scanErr (amino : Bool) : List Char → Nat → Nat → Nat → Option ParseErr
  | [], _, _, _ => none
  | c :: rest, pos, line, lineStart =>
    if acceptedChar amino c then
      if c = '\n' then scanErr amino rest (pos + 1) (line + 1) (pos + 1)
      else scanErr amino rest (pos + 1) line lineStart
    else some { char := c, line := line, column := pos - lineStart }

/-- The length of the leading description line of a chunk: the whole first
line when the chunk starts with a marker, otherwise 0. -/
def descLen (data : List Char) : Nat :=
  match data with
  | [] => 0
  | c :: _ =>
    if markers.contains c then (data.takeWhile fun x => x != '\n').length else 0

/-- The error of an `Except` result, if any. -/
def exceptErr {ε α : Type} : Except ε α → Option ε
  | .error e => some e
  | .ok _ => none

instance {ε α : Type} [DecidableEq ε] [DecidableEq α] : DecidableEq (Except ε α) := fun a b =>
  match a, b with
  | .error e, .error f =>
    decidable_of_iff (e = f) ⟨fun h => by rw [h], fun h => by injection h⟩
  | .error _, .ok _ => isFalse fun h => Except.noConfusion h
  | .ok _, .error _ => isFalse fun h => Except.noConfusion h
  | .ok a, .ok b =>
    decidable_of_iff (a = b) ⟨fun h => by rw [h], fun h => by injection h⟩

theorem exceptErr_map {ε α β : Type} (f : α → β) (x : Except ε α) :
    exceptErr (x.map f) = exceptErr x := by
  cases x <;> rfl

theorem scanErr_cons (amino : Bool) (c : Char) (rest : List Char)
    (pos line lineStart : Nat) :
    scanErr amino (c :: rest) pos line lineStart =
      if acceptedChar amino c then
        if c = '\n' then scanErr amino rest (pos + 1) (line + 1) (pos + 1)
        else scanErr amino rest (pos + 1) line lineStart
      else some { char := c, line := line, column := pos - lineStart } := rfl

theorem tokenizeGo_cons_class (amino : Bool) (fuel : Nat) (c : Char)
    (rest : List Char) (pos line lineStart : Nat) (k : String × List Char)
    (hfind : (token_classes amino).find? (fun k => k.2.contains c) = some k) :
    tokenizeGo amino (fuel + 1) (c :: rest) pos line lineStart =
      (tokenizeGo amino fuel (rest.dropWhile fun x => k.2.contains x)
          (pos + (c :: rest.takeWhile fun x => k.2.contains x).length) line lineStart).map
        fun ts =>
          { type := k.1, line := line, column := pos - lineStart,
            data := str_join ((c :: rest.takeWhile fun x => k.2.contains x).map
              Char.toUpper) } :: ts := by
  simp only [tokenizeGo, hfind]

theorem tokenizeGo_cons_desc (amino : Bool) (fuel : Nat) (c : Char)
    (rest : List Char) (line lineStart : Nat)
    (hfind : (token_classes amino).find? (fun k => k.2.contains c) = none)
    (hm : markers.contains c = true) :
    tokenizeGo amino (fuel + 1) (c :: rest) 0 line lineStart =
      (tokenizeGo amino fuel (rest.dropWhile fun x => x != '\n')
          (0 + (c :: rest.takeWhile fun x => x != '\n').length) line lineStart).map
        fun ts =>
          { type := "DESCRIPTION", line := line, column := 0 - lineStart,
            value := str_join (c :: rest.takeWhile fun x => x != '\n') } :: ts := by
  simp only [tokenizeGo, hfind]
  rw [if_pos ⟨trivial, hm⟩]

theorem tokenizeGo_cons_newline (amino : Bool) (fuel : Nat) (rest : List Char)
    (pos line lineStart : Nat)
    (hfind : (token_classes amino).find? (fun k => k.2.contains '\n') = none) :
    tokenizeGo amino (fuel + 1) ('\n' :: rest) pos line lineStart =
      tokenizeGo amino fuel rest (pos + 1) (line + 1) (pos + 1) := by
  simp only [tokenizeGo, hfind]
  rw [if_neg (fun h => absurd h.2 (by decide))]
  rfl

theorem tokenizeGo_cons_skip (amino : Bool) (fuel : Nat) (c : Char)
    (rest : List Char) (pos line lineStart : Nat)
    (hfind : (token_classes amino).find? (fun k => k.2.contains c) = none)
    (hdesc : ¬(pos = 0 ∧ markers.contains c)) (hnl : ¬ c = '\n')
    (hsp : c = ' ' ∨ c = '\t') :
    tokenizeGo amino (fuel + 1) (c :: rest) pos line lineStart =
      tokenizeGo amino fuel (rest.dropWhile fun x => x == ' ' || x == '\t')
        (pos + (c :: rest.takeWhile fun x => x == ' ' || x == '\t').length)
        line lineStart := by
  simp only [tokenizeGo, hfind]
  rw [if_neg hdesc, if_neg hnl, if_pos hsp]

theorem tokenizeGo_cons_mismatch (amino : Bool) (fuel : Nat) (c : Char)
    (rest : List Char) (pos line lineStart : Nat)
    (hfind : (token_classes amino).find? (fun k => k.2.contains c) = none)
    (hdesc : ¬(pos = 0 ∧ markers.contains c)) (hnl : ¬ c = '\n')
    (hsp : ¬(c = ' ' ∨ c = '\t')) :
    tokenizeGo amino (fuel + 1) (c :: rest) pos line lineStart =
      .error { char := c, line := line, column := pos - lineStart } := by
  simp only [tokenizeGo, hfind]
  rw [if_neg hdesc, if_neg hnl, if_neg hsp]

theorem class_chars_accepted (amino : Bool) (k : String × List Char)
    (hk : k ∈ token_classes amino) (c : Char) (hc : k.2.contains c = true) :
    acceptedChar amino c = true := by
  unfold acceptedChar
  have hany : ((token_classes amino).any fun k => k.2.contains c) = true :=
    List.any_eq_true.mpr ⟨k, hk, hc⟩
  rw [hany]
  rfl

theorem class_chars_no_newline (amino : Bool) :
    ∀ k ∈ token_classes amino, k.2.contains '\n' = false := by
  cases amino <;> decide

theorem space_tab_accepted (amino : Bool) (x : Char)
    (hx : (x == ' ' || x == '\t') = true) :
    acceptedChar amino x = true ∧ x ≠ '\n' := by
  have hx' : x = ' ' ∨ x = '\t' := by simpa using hx
  rcases hx' with rfl | rfl <;>
    exact ⟨by cases amino <;> decide, by decide⟩

theorem scanErr_append_run (amino : Bool) (run rest : List Char)
    (h : ∀ c ∈ run, acceptedChar amino c = true ∧ c ≠ '\n') :
    ∀ pos line lineStart,
      scanErr amino (run ++ rest) pos line lineStart =
        scanErr amino rest (pos + run.length) line lineStart := by
  induction run with
  | nil => intro pos line lineStart; simp
  | cons c run ih =>
    intro pos line lineStart
    obtain ⟨hacc, hnl⟩ := h c (List.mem_cons_self c run)
    have harith : pos + 1 + run.length = pos + (c :: run).length := by
      simp only [List.length_cons]
      omega
    rw [List.cons_append, scanErr_cons, if_pos hacc, if_neg hnl,
      ih (fun x hx => h x (List.mem_cons_of_mem c hx)) (pos + 1) line lineStart, harith]

theorem scanErr_eq_none_iff (amino : Bool) :
    ∀ (cs : List Char) (pos line lineStart : Nat),
      scanErr amino cs pos line lineStart = none ↔
        ∀ c ∈ cs, acceptedChar amino c = true := by
  intro cs
  induction cs with
  | nil => intro pos line lineStart; simp [scanErr]
  | cons c rest ih =>
    intro pos line lineStart
    rw [scanErr_cons]
    by_cases hacc : acceptedChar amino c
    · by_cases hnl : c = '\n'
      · rw [if_pos hacc, if_pos hnl, ih]
        simp [hacc]
      · rw [if_pos hacc, if_neg hnl, ih]
        simp [hacc]
    · rw [if_neg hacc]
      constructor
      · intro h
        exact absurd h (by simp)
      · intro h
        exact absurd (h c (List.mem_cons_self c rest)) hacc

theorem scanErr_some_spec (amino : Bool) :
    ∀ (cs : List Char) (pos line lineStart : Nat) (e : ParseErr),
      scanErr amino cs pos line lineStart = some e →
        acceptedChar amino e.char = false ∧ e.char ∈ cs := by
  intro cs
  induction cs with
  | nil => intro pos line lineStart e h; simp [scanErr] at h
  | cons c rest ih =>
    intro pos line lineStart e h
    rw [scanErr_cons] at h
    by_cases hacc : acceptedChar amino c
    · by_cases hnl : c = '\n'
      · rw [if_pos hacc, if_pos hnl] at h
        obtain ⟨h1, h2⟩ := ih _ _ _ e h
        exact ⟨h1, List.mem_cons_of_mem c h2⟩
      · rw [if_pos hacc, if_neg hnl] at h
        obtain ⟨h1, h2⟩ := ih _ _ _ e h
        exact ⟨h1, List.mem_cons_of_mem c h2⟩
    · rw [if_neg hacc] at h
      have he : e = { char := c, line := line, column := pos - lineStart } := by
        simpa using h.symm
      subst he
      exact ⟨by simpa using hacc, List.mem_cons_self c rest⟩

/-- The core equivalence: away from a chunk-leading description (position
non-zero, or a non-marker head), the tokenizer errors exactly as the
character scan `scanErr` prescribes. -/
theorem tokenizeGo_exceptErr (amino : Bool) (fuel : Nat) :
    ∀ (cs : List Char) (pos line lineStart : Nat), cs.length ≤ fuel →
      (pos = 0 → ∀ c, cs.head? = some c → markers.contains c = false) →
      exceptErr (tokenizeGo amino fuel cs pos line lineStart) =
        scanErr amino cs pos line lineStart := by
  induction fuel with
  | zero =>
    intro cs pos line lineStart hf _
    have hnil : cs = [] := List.length_eq_zero.mp (Nat.le_zero.mp hf)
    subst hnil
    rfl
  | succ fuel ih =>
    intro cs pos line lineStart hf hguard
    cases cs with
    | nil => rfl
    | cons c rest =>
      have hflen : rest.length ≤ fuel := by
        simpa using hf
      cases hfind : (token_classes amino).find? fun k => k.2.contains c with
      | some k =>
        have hkmem : k ∈ token_classes amino := List.mem_of_find?_eq_some hfind
        have hkc : k.2.contains c = true := by
          have := List.find?_some hfind
          simpa using this
        have hclassnl : k.2.contains '\n' = false := class_chars_no_newline amino k hkmem
        have hrun : ∀ x ∈ c :: (rest.takeWhile fun x => k.2.contains x),
            acceptedChar amino x = true ∧ x ≠ '\n' := by
          intro x hx
          have hxc : k.2.contains x = true := by
            rcases List.mem_cons.mp hx with rfl | hx'
            · exact hkc
            · exact List.mem_takeWhile_imp hx'
          refine ⟨class_chars_accepted amino k hkmem x hxc, ?_⟩
          intro hxnl
          rw [hxnl, hclassnl] at hxc
          exact absurd hxc (by decide)
        have hsplit : c :: rest =
            (c :: (rest.takeWhile fun x => k.2.contains x)) ++
              (rest.dropWhile fun x => k.2.contains x) := by
          rw [List.cons_append, List.takeWhile_append_dropWhile]
        rw [tokenizeGo_cons_class amino fuel c rest pos line lineStart k hfind,
          exceptErr_map,
          ih _ _ line lineStart
            (le_trans (List.dropWhile_sublist _).length_le hflen)
            (fun h0 _ _ => absurd h0 (by simp only [List.length_cons]; omega))]
        conv_rhs => rw [hsplit]
        rw [scanErr_append_run amino _ _ hrun pos line lineStart]
      | none =>
        by_cases hdesc : pos = 0 ∧ markers.contains c = true
        · have hcontra := hguard hdesc.1 c rfl
          rw [hdesc.2] at hcontra
          exact absurd hcontra (by decide)
        · by_cases hnl : c = '\n'
          · subst hnl
            rw [tokenizeGo_cons_newline amino fuel rest pos line lineStart hfind,
              ih rest (pos + 1) (line + 1) (pos + 1) hflen (fun h0 => absurd h0 (by omega)),
              scanErr_cons, if_pos (by cases amino <;> decide), if_pos rfl]
          · by_cases hsp : c = ' ' ∨ c = '\t'
            · have hq : (c == ' ' || c == '\t') = true := by
                rcases hsp with h | h <;> simp [h]
              have hrun : ∀ x ∈ c :: (rest.takeWhile fun x => x == ' ' || x == '\t'),
                  acceptedChar amino x = true ∧ x ≠ '\n' := by
                intro x hx
                rcases List.mem_cons.mp hx with rfl | hx'
                · exact space_tab_accepted amino x hq
                · have := List.mem_takeWhile_imp hx'
                  exact space_tab_accepted amino x (by simpa using this)
              have hsplit : c :: rest =
                  (c :: (rest.takeWhile fun x => x == ' ' || x == '\t')) ++
                    (rest.dropWhile fun x => x == ' ' || x == '\t') := by
                rw [List.cons_append, List.takeWhile_append_dropWhile]
              rw [tokenizeGo_cons_skip amino fuel c rest pos line lineStart hfind hdesc hnl hsp,
                ih _ _ line lineStart
                  (le_trans (List.dropWhile_sublist _).length_le hflen)
                  (fun h0 _ _ => absurd h0 (by simp only [List.length_cons]; omega))]
              conv_rhs => rw [hsplit]
              rw [scanErr_append_run amino _ _ hrun pos line lineStart]
            · have hacc : acceptedChar amino c = false := by
                have h1 : ((token_classes amino).any fun k => k.2.contains c) = false := by
                  rw [List.any_eq_false]
                  intro k hk
                  exact List.find?_eq_none.mp hfind k hk
                have e1 : (c == '\n') = false := by simpa using hnl
                have e2 : (c == ' ') = false := by simpa using fun h => hsp (Or.inl h)
                have e3 : (c == '\t') = false := by simpa using fun h => hsp (Or.inr h)
                unfold acceptedChar
                rw [h1, e1, e2, e3]
                rfl
              rw [tokenizeGo_cons_mismatch amino fuel c rest pos line lineStart hfind hdesc hnl hsp,
                scanErr_cons, if_neg (by simp [hacc])]
              rfl

theorem markers_not_in_classes (amino : Bool) (c : Char)
    (hm : markers.contains c = true) :
    ∀ k ∈ token_classes amino, k.2.contains c = false := by
  have hcm : c = '>' ∨ c = ';' ∨ c = '@' := by simpa [markers] using hm
  rcases hcm with rfl | rfl | rfl <;> (cases amino <;> decide)

theorem marker_ne_newline (c : Char) (hm : markers.contains c = true) :
    (c != '\n') = true := by
  have hcm : c = '>' ∨ c = ';' ∨ c = '@' := by simpa [markers] using hm
  rcases hcm with rfl | rfl | rfl <;> decide

theorem drop_takeWhile_length {α : Type} (p : α → Bool) (l : List α) :
    l.drop (l.takeWhile p).length = l.dropWhile p := by
  induction l with
  | nil => rfl
  | cons a l ih =>
    by_cases h : p a
    · rw [List.takeWhile_cons_of_pos h, List.dropWhile_cons_of_pos h]
      simpa using ih
    · rw [List.takeWhile_cons_of_neg (by simpa using h),
        List.dropWhile_cons_of_neg (by simpa using h)]
      rfl

/-- `tokenize` raises exactly the error that the plain character scan of the
chunk, skipping any leading description line, prescribes. -/
theorem tokenize_exceptErr (data : String) (amino : Bool) (line : Nat) :
    exceptErr (tokenize data amino line) =
      scanErr amino (data.toList.drop (descLen data.toList))
        (descLen data.toList) line 0 := by
  unfold tokenize
  cases hdata : data.toList with
  | nil => rfl
  | cons c rest =>
    simp only [List.length_cons]
    by_cases hm : markers.contains c = true
    · have hcnl : (c != '\n') = true := marker_ne_newline c hm
      have hfind : (token_classes amino).find? (fun k => k.2.contains c) = none := by
        rw [List.find?_eq_none]
        intro k hk
        simpa using markers_not_in_classes amino c hm k hk
      have hdl : descLen (c :: rest) = (c :: (rest.takeWhile fun x => x != '\n')).length := by
        simp only [descLen]
        rw [if_pos hm]
        simp only [List.takeWhile_cons, hcnl, if_true]
      have hdrop : (c :: rest).drop (descLen (c :: rest)) =
          rest.dropWhile fun x => x != '\n' := by
        rw [hdl]
        simp only [List.length_cons, List.drop_succ_cons]
        exact drop_takeWhile_length _ rest
      rw [tokenizeGo_cons_desc amino rest.length c rest line 0 hfind hm,
        exceptErr_map,
        tokenizeGo_exceptErr amino rest.length _ _ line 0
          (le_trans (List.dropWhile_sublist _).length_le (le_refl _))
          (fun h0 _ _ => absurd h0 (by simp only [List.length_cons]; omega))]
      rw [hdrop, hdl, Nat.zero_add]
    · have hdl0 : descLen (c :: rest) = 0 := by
        simp only [descLen]
        rw [if_neg hm]
      rw [hdl0, List.drop_zero]
      exact tokenizeGo_exceptErr amino (rest.length + 1) (c :: rest) 0 line 0
        (by simp)
        (fun _ c' hc' => by
          have hcc : c = c' := by simpa using hc'
          subst hcc
          simpa using hm)

/-- C7 (amended): `tokenize` raises ParseError exactly when the chunk
contains a character outside the accepted alphabet (mode classes plus
newline, space, tab) at a position not covered by a leading description line
(a chunk whose first character is '>', ';' or '@' has its whole first line
covered); the raised error carries the first such character together with
the line and column Python computes for it (`scanErr`), and any raised
error's character is an out-of-alphabet character of the chunk. -/
theorem tokenize_parse_error_iff (data : String) (amino : Bool) (line : Nat) :
    (∀ e, tokenize data amino line = .error e ↔
      scanErr amino (data.toList.drop (descLen data.toList))
        (descLen data.toList) line 0 = some e) ∧
    ((∃ ts, tokenize data amino line = .ok ts) ↔
      ∀ c ∈ data.toList.drop (descLen data.toList), acceptedChar amino c = true) ∧
    (∀ e, tokenize data amino line = .error e →
      acceptedChar amino e.char = false ∧ e.char ∈ data.toList) := by
  have key := tokenize_exceptErr data amino line
  refine ⟨?_, ?_, ?_⟩
  · intro e
    constructor
    · intro h
      rw [h] at key
      exact key.symm
    · intro h
      cases htok : tokenize data amino line with
      | error e' =>
        rw [htok] at key
        rw [h] at key
        have he : e' = e := by simpa [exceptErr] using key
        rw [he]
      | ok ts =>
        rw [htok] at key
        rw [h] at key
        simp [exceptErr] at key
  · constructor
    · rintro ⟨ts, hts⟩
      rw [hts] at key
      exact (scanErr_eq_none_iff amino _ _ _ _).mp key.symm
    · intro hall
      cases htok : tokenize data amino line with
      | ok ts => exact ⟨ts, rfl⟩
      | error e =>
        rw [htok] at key
        rw [(scanErr_eq_none_iff amino _ _ _ _).mpr hall] at key
        simp [exceptErr] at key
  · intro e he
    rw [he] at key
    obtain ⟨h1, h2⟩ := scanErr_some_spec amino _ _ _ _ e key.symm
    exact ⟨h1, List.mem_of_mem_drop h2⟩

/-- C7 counterexample: the chunk ">!" contains '!', a character outside the
nucleotide alphabet, yet `tokenize` raises no ParseError, because the
leading description line swallows the whole first line; this refutes the
claim as stated. -/
theorem tokenize_cex_description_swallows :
    tokenize ">!" false 1 =
      .ok [{ type := "DESCRIPTION", line := 1, column := 0, data := "", value := ">!" }] ∧
    acceptedChar false '!' = false ∧ '!' ∈ ">!".toList := by
  decide

/-- C7 witness: the amended theorem applied to the chunk "A\n!" yields the
concrete ParseError carrying '!' at line 2, column 0. -/
theorem tokenize_parse_error_iff_witness :
    tokenize "A\n!" false 1 = .error { char := '!', line := 2, column := 0 } :=
  ((tokenize_parse_error_iff "A\n!" false 1).1 _).mpr (by decide)

theorem class_names_ne_description (amino : Bool) :
    ∀ n ∈ (token_classes amino).map Prod.fst, n ≠ "DESCRIPTION" := by
  cases amino <;> decide

/-- Away from a chunk-leading description, every token the scanner produces
is a data token: its type is one of the mode's class names. -/
theorem tokenizeGo_types (amino : Bool) (fuel : Nat) :
    ∀ (cs : List Char) (pos line lineStart : Nat) (ts : List FastaToken),
      (pos = 0 → ∀ c, cs.head? = some c → markers.contains c = false) →
      tokenizeGo amino fuel cs pos line lineStart = .ok ts →
      ∀ t ∈ ts, t.type ∈ (token_classes amino).map Prod.fst := by
  induction fuel with
  | zero =>
    intro cs pos line lineStart ts _ hok
    have hts : ts = [] := by
      have h := hok.symm
      simp only [tokenizeGo] at h
      simpa using h
    subst hts
    intro t ht
    simp at ht
  | succ fuel ih =>
    intro cs pos line lineStart ts hguard hok
    cases cs with
    | nil =>
      have hts : ts = [] := by
        have h := hok.symm
        simp only [tokenizeGo] at h
        simpa using h
      subst hts
      intro t ht
      simp at ht
    | cons c rest =>
      cases hfind : (token_classes amino).find? fun k => k.2.contains c with
      | some k =>
        rw [tokenizeGo_cons_class amino fuel c rest pos line lineStart k hfind] at hok
        cases hrec : tokenizeGo amino fuel (rest.dropWhile fun x => k.2.contains x)
            (pos + (c :: rest.takeWhile fun x => k.2.contains x).length) line lineStart with
        | error e =>
          rw [hrec] at hok
          simp [Except.map] at hok
        | ok ts' =>
          rw [hrec] at hok
          have hts : ts =
              { type := k.1, line := line, column := pos - lineStart,
                  data := str_join ((c :: rest.takeWhile fun x => k.2.contains x).map
                    Char.toUpper) } :: ts' := by
            simpa [Except.map] using hok.symm
          subst hts
          intro t ht
          rcases List.mem_cons.mp ht with rfl | ht'
          · exact List.mem_map.mpr ⟨k, List.mem_of_find?_eq_some hfind, rfl⟩
          · exact ih _ _ line lineStart ts'
              (fun h0 _ _ => absurd h0 (by simp only [List.length_cons]; omega))
              hrec t ht'
      | none =>
        by_cases hdesc : pos = 0 ∧ markers.contains c = true
        · have hcontra := hguard hdesc.1 c rfl
          rw [hdesc.2] at hcontra
          exact absurd hcontra (by decide)
        · by_cases hnl : c = '\n'
          · subst hnl
            rw [tokenizeGo_cons_newline amino fuel rest pos line lineStart hfind] at hok
            exact ih _ _ _ _ ts (fun h0 _ _ => absurd h0 (by omega)) hok
          · by_cases hsp : c = ' ' ∨ c = '\t'
            · rw [tokenizeGo_cons_skip amino fuel c rest pos line lineStart
                hfind hdesc hnl hsp] at hok
              exact ih _ _ _ _ ts
                (fun h0 _ _ => absurd h0 (by simp only [List.length_cons]; omega))
                hok
            · rw [tokenizeGo_cons_mismatch amino fuel c rest pos line lineStart
                hfind hdesc hnl hsp] at hok
              simp at hok

/-- C8 (amended): a DESCRIPTION token is produced exactly for a chunk whose
first character is one of the markers '>', ';' or '@' (only at the start of
the chunk), it is the first token, and its value is the entire first line
including the marker character; a chunk with a non-marker head yields no
DESCRIPTION token at all. -/
theorem tokenize_description_exactly (data : String) (amino : Bool) (line : Nat) :
    (∀ c, data.toList.head? = some c → markers.contains c = true →
      ∀ ts, tokenize data amino line = .ok ts →
        ∃ ts', ts =
          { type := "DESCRIPTION", line := line, column := 0, data := "",
              value := str_join (data.toList.takeWhile fun x => x != '\n') } :: ts' ∧
          ∀ t ∈ ts', t.type ≠ "DESCRIPTION") ∧
    ((∀ c, data.toList.head? = some c → markers.contains c = false) →
      ∀ ts, tokenize data amino line = .ok ts → ∀ t ∈ ts, t.type ≠ "DESCRIPTION") := by
  constructor
  · intro c hc hm ts hok
    unfold tokenize at hok
    cases hdata : data.toList with
    | nil =>
      rw [hdata] at hc
      simp at hc
    | cons c0 rest =>
      rw [hdata] at hc hok
      have hcc : c0 = c := by simpa using hc
      subst hcc
      have hcnl : (c0 != '\n') = true := marker_ne_newline c0 hm
      have hfind : (token_classes amino).find? (fun k => k.2.contains c0) = none := by
        rw [List.find?_eq_none]
        intro k hk
        simpa using markers_not_in_classes amino c0 hm k hk
      simp only [List.length_cons] at hok
      rw [tokenizeGo_cons_desc amino rest.length c0 rest line 0 hfind hm] at hok
      cases hrec : tokenizeGo amino rest.length (rest.dropWhile fun x => x != '\n')
          (0 + (c0 :: rest.takeWhile fun x => x != '\n').length) line 0 with
      | error e =>
        rw [hrec] at hok
        simp [Except.map] at hok
      | ok ts' =>
        rw [hrec] at hok
        have hts : ts =
            { type := "DESCRIPTION", line := line, column := 0 - 0,
                data := "", value := str_join (c0 :: rest.takeWhile fun x => x != '\n') }
              :: ts' := by
          simpa [Except.map] using hok.symm
        refine ⟨ts', ?_, ?_⟩
        · rw [hts]
          simp only [List.takeWhile_cons, hcnl, if_true]
        · intro t ht
          have htype := tokenizeGo_types amino rest.length _ _ line 0 ts'
            (fun h0 _ _ => absurd h0 (by simp only [List.length_cons]; omega))
            hrec t ht
          exact class_names_ne_description amino t.type htype
  · intro hnodesc ts hok t ht
    unfold tokenize at hok
    have htype := tokenizeGo_types amino data.toList.length data.toList 0 line 0 ts
      (fun _ c' hc' => hnodesc c' hc') hok t ht
    exact class_names_ne_description amino t.type htype

/-- C8 counterexample: for the chunk ">abc" the DESCRIPTION token's value is
the whole line ">abc" with the marker retained, not the remainder "abc" the
claim prescribes. -/
theorem tokenize_cex_description_value :
    tokenize ">abc" false 1 =
      .ok [{ type := "DESCRIPTION", line := 1, column := 0, data := "", value := ">abc" }] ∧
    (">abc" : String) ≠ "abc" := by
  decide

/-- C8 witness: the amended theorem applied to the chunk ">seq\nACGT". -/
theorem tokenize_description_exactly_witness :
    ∃ ts',
      [({ type := "DESCRIPTION", line := 1, column := 0, data := "", value := ">seq" }
          : FastaToken),
        { type := "BASE", line := 2, column := 0, data := "ACGT", value := "" }] =
      ({ type := "DESCRIPTION", line := 1, column := 0, data := "",
            value := str_join (">seq\nACGT".toList.takeWhile fun x => x != '\n') }
          : FastaToken) :: ts' ∧
      ∀ t ∈ ts', t.type ≠ "DESCRIPTION" :=
  (tokenize_description_exactly ">seq\nACGT" false 1).1 '>' (by decide) (by decide)
    _ (by decide)

end Serpent
